import Mathlib

/-!
Verification of the p2 pod-replication engine core
(`pkg/replication/replication.go`, `pkg/replication/health_aggregator.go`,
and the rollout-order sorter) against its natural-language specification.

The Go code is shallowly embedded: pure fragments become Lean functions,
loops driven by channel selects become recursive functions over the list
of select events observed by the loop, and the worker pool of `Enact()`
becomes a step relation on an explicit pool state.
-/

namespace P2

/-! ## Manifest model

`manifest.Manifest` exposes `ID()` and `SHA() (string, error)`.  The engine
treats a manifest as an opaque value identified by its content hash, so we
model it by its pod id and the pair returned by `SHA()`: the hash string and
whether `SHA()` reported an error (`shaErr`).  Call sites that write
`sha, _ := m.SHA()` read the `sha` field and ignore `shaErr`. -/

structure Manifest where
  id : String
  sha : String
  shaErr : Bool
deriving DecidableEq, Repr

/-! ## Replication state touched by `SetManifest` / `GetManifest` / `Cancel`

`replication` (replication.go:99-162) has many fields; the ones read or
written by `SetManifest` (lines 421-431), `GetManifest` (439-443) and
`Cancel` (411-415) are the manifest, the atomic `completedCount`, whether a
caller-supplied `nodeQueue` is present (`nodeQueue != nil`), and whether
`replicationCancelledCh` has been closed. -/

structure ReplState where
  manifest : Manifest
  completedCount : Int
  hasNodeQueue : Bool
  cancelledChClosed : Bool
deriving DecidableEq, Repr

/-- `SetManifest` (replication.go:421-431): under the writer lock, compare
the old and new SHAs (errors ignored); if they differ, store 0 into
`completedCount`; then store the new manifest. -/
def SetManifest (r : ReplState) (man : Manifest) : ReplState :=
  let oldSHA := r.manifest.sha
  let newSHA := man.sha
  { r with
    completedCount := if oldSHA ≠ newSHA then 0 else r.completedCount
    manifest := man }

/-- `GetManifest` (replication.go:439-443): read the manifest under the
reader lock. -/
def GetManifest (r : ReplState) : Manifest :=
  r.manifest

/-- `Cancel` (replication.go:411-415): close `replicationCancelledCh` only
when the replication was constructed with a nil `nodeQueue`. -/
def Cancel (r : ReplState) : ReplState :=
  if r.hasNodeQueue = false then { r with cancelledChClosed := true } else r

/-- C1: `SetManifest(m)` replaces the stored manifest with `m`; it resets
`completedCount` to zero exactly when the SHA of `m` differs from the SHA of
the previously stored manifest, and leaves it unchanged when the SHAs are
equal; subsequent `GetManifest` calls return `m`. -/
theorem setManifest_replaces_and_resets_iff_sha_differs
    (r : ReplState) (m : Manifest) :
    GetManifest (SetManifest r m) = m ∧
      (SetManifest r m).completedCount =
        (if r.manifest.sha = m.sha then r.completedCount else 0) := by
  refine ⟨rfl, ?_⟩
  by_cases h : r.manifest.sha = m.sha <;> simp [SetManifest, h]

/-- C10: for a replication constructed with a non-nil `nodeQueue`,
`Cancel()` is a no-op (it changes no state and does not close
`replicationCancelledCh`); `replicationCancelledCh` is closed by `Cancel()`
exactly when the `nodeQueue` was nil. -/
theorem cancel_noop_iff_nodeQueue_present (r : ReplState) :
    (r.hasNodeQueue = true → Cancel r = r) ∧
      (r.hasNodeQueue = false →
        Cancel r = { r with cancelledChClosed := true }) := by
  constructor
  · intro h
    simp [Cancel, h]
  · intro h
    simp [Cancel, h]

/-- Witness for C10 at a concrete replication state: with a node queue
present, `Cancel` returns the state unchanged. -/
theorem cancel_noop_iff_nodeQueue_present_witness :
    Cancel ⟨⟨"pod", "sha1", false⟩, 3, true, false⟩ =
      ⟨⟨"pod", "sha1", false⟩, 3, true, false⟩ :=
  (cancel_noop_iff_nodeQueue_present ⟨⟨"pod", "sha1", false⟩, 3, true, false⟩).1 rfl

/-! ## Health states and comparison

`health.HealthState` is a Go string type; the replication code also meets
its zero value `""` (the `Status` of the zero `health.Result` produced when
a node is missing from the aggregator's map, replication.go:662-668). -/

inductive HealthState where
  | empty
  | unknown
  | critical
  | warning
  | passing
deriving DecidableEq, Repr

/-- Modelled from the spec: `health.HealthState.Value` and `health.Compare`
live in `pkg/health`, which is not under `src/`.  Per spec §3 the
comparison is total with `Unknown < Critical < Warning < Passing`, and the
zero value fed in for a node missing from the aggregator's map is "treated
as `Critical`" (spec §4.6; also the comment at replication.go:668, "Zero
res should be treated like critical"). -/
def HealthState.value : HealthState → Int
  | .empty => 1
  | .unknown => 0
  | .critical => 1
  | .warning => 2
  | .passing => 3

/-- Modelled from the spec: `health.Compare(a, b)` is the total comparison
of health states, negative exactly when `a` is strictly less healthy
than `b`. -/
def healthCompare (a b : HealthState) : Int :=
  a.value - b.value

/-- `health.Result` as read by the replication code: a check id and a
status (`res.ID`, `res.Status` at replication.go:669-670). -/
structure HealthResult where
  id : String
  status : HealthState
deriving DecidableEq, Repr

/-- The aggregator's `curHealth` map (`map[types.NodeName]health.Result`),
modelled as an association list keyed by node name. -/
abbrev Snapshot := List (String × HealthResult)

/-- Association-list lookup standing in for a Go map read `m[host]` with
its `ok` flag (`none` = key absent). -/
def mapLookup (cur : Snapshot) (host : String) : Option HealthResult :=
  match cur with
  | [] => none
  | (k, v) :: rest => if k = host then some v else mapLookup rest host

/-- `podHealth.GetHealth` (health_aggregator.go:83-88): read
`curHealth[host]` under the lock, returning the result and presence flag. -/
def GetHealth (cur : Snapshot) (host : String) : Option HealthResult :=
  mapLookup cur host

/-- `podHealth.numOfHealth` (health_aggregator.go:90-101): count the hosts
whose entry is present and has exactly the given status. -/
def numOfHealth (status : HealthState) (hosts : List String) (cur : Snapshot) : Nat :=
  hosts.foldl
    (fun count host =>
      match mapLookup cur host with
      | some h => if h.status = status then count + 1 else count
      | none => count)
    0

/-- The zero `health.Result` left in `res` when `GetHealth` reports
`ok == false` (replication.go:662-668). -/
def zeroHealthResult : HealthResult :=
  ⟨"", .empty⟩

/-- The errors a per-node wait loop can exit with
(`errTimeout`, `errCancelled`, `errQuit`). -/
inductive UpdateErr where
  | errTimeout
  | errCancelled
  | errQuit
deriving DecidableEq, Repr

/-- One firing of `ensureHealthy`'s select (replication.go:650-661): the
quit channel, the context deadline, the cancellation channel, or the poll
tick (which observes the aggregator's current map). -/
inductive HealthEvent where
  | quit
  | ctxDone
  | cancelled
  | tick (cur : Snapshot)
deriving DecidableEq, Repr

/-- Result of running a per-node wait loop over a finite list of select
events: the loop returned nil, returned an error, or is still polling. -/
inductive PollResult where
  | success
  | failure (e : UpdateErr)
  | stillPolling
deriving DecidableEq, Repr

/-- One poll body of `ensureHealthy` (replication.go:661-683): read the
node's health from the aggregator (zero `Result` when absent), substitute
`Passing` for an empty threshold, and declare the node healthy unless
`health.Compare(status, threshold) < 0`. -/
def ensureHealthyCheck (threshold : HealthState) (cur : Snapshot) (node : String) : Bool :=
  let res := (GetHealth cur node).getD zeroHealthResult
  let status := res.status
  let eff := if threshold = HealthState.empty then HealthState.passing else threshold
  if healthCompare status eff < 0 then false else true

/-- `ensureHealthy` (replication.go:644-685) over the events its select
observes: quit ⇒ `errQuit`, deadline ⇒ `errTimeout`, cancellation ⇒
`errCancelled`, tick ⇒ poll the aggregator and return nil exactly when the
node's status is at or above the effective threshold, else keep looping. -/
def ensureHealthy (threshold : HealthState) (node : String) :
    List HealthEvent → PollResult
  | [] => .stillPolling
  | .quit :: _ => .failure .errQuit
  | .ctxDone :: _ => .failure .errTimeout
  | .cancelled :: _ => .failure .errCancelled
  | .tick cur :: rest =>
    if ensureHealthyCheck threshold cur node then .success
    else ensureHealthy threshold node rest

/-- The status actually compared for a node, phrased the way the claim
does: the node's status when present, `Critical` when missing. -/
def claimedEffectiveStatus (cur : Snapshot) (node : String) : HealthState :=
  match GetHealth cur node with
  | some r => r.status
  | none => HealthState.critical

/-- The threshold actually compared, phrased the way the claim does: the
given threshold, or `Passing` when it is empty. -/
def claimedEffectiveThreshold (threshold : HealthState) : HealthState :=
  if threshold = HealthState.empty then HealthState.passing else threshold

/-- C6: on a run of poll ticks, `ensureHealthy` declares the node done
(returns nil) exactly when some observed snapshot puts the node's status at
or above the effective threshold — where an empty threshold is treated as
`Passing` and a node missing from the aggregator's map is treated as
`Critical` — and otherwise it keeps polling. -/
theorem ensureHealthy_done_iff_status_ge_threshold
    (threshold : HealthState) (node : String) (snaps : List Snapshot) :
    (ensureHealthy threshold node (snaps.map .tick) = .success ↔
      ∃ cur ∈ snaps,
        0 ≤ healthCompare (claimedEffectiveStatus cur node)
            (claimedEffectiveThreshold threshold)) ∧
    (ensureHealthy threshold node (snaps.map .tick) = .stillPolling ↔
      ∀ cur ∈ snaps,
        healthCompare (claimedEffectiveStatus cur node)
            (claimedEffectiveThreshold threshold) < 0) := by
  have hcheck : ∀ cur : Snapshot,
      ensureHealthyCheck threshold cur node = true ↔
        0 ≤ healthCompare (claimedEffectiveStatus cur node)
          (claimedEffectiveThreshold threshold) := by
    intro cur
    unfold ensureHealthyCheck claimedEffectiveStatus claimedEffectiveThreshold
    cases h : GetHealth cur node with
    | none =>
      simp only [h, Option.getD]
      constructor
      · intro hb
        by_contra hlt
        push_neg at hlt
        have : healthCompare zeroHealthResult.status
            (if threshold = HealthState.empty then HealthState.passing else threshold) < 0 := by
          simpa [zeroHealthResult, healthCompare, HealthState.value] using hlt
        simp [this] at hb
      · intro hle
        have : ¬ healthCompare zeroHealthResult.status
            (if threshold = HealthState.empty then HealthState.passing else threshold) < 0 := by
          simpa [zeroHealthResult, healthCompare, HealthState.value] using not_lt.mpr hle
        simp [this]
    | some r =>
      simp only [h, Option.getD]
      by_cases hlt : healthCompare r.status
          (if threshold = HealthState.empty then HealthState.passing else threshold) < 0
      · simp [hlt, not_le.mpr hlt]
      · simp [hlt, not_lt.mp hlt]
  induction snaps with
  | nil =>
    simp [ensureHealthy]
  | cons cur rest ih =>
    by_cases hc : ensureHealthyCheck threshold cur node = true
    · have hge := (hcheck cur).mp hc
      constructor
      · simp only [List.map_cons, ensureHealthy, hc, if_true]
        constructor
        · intro _
          exact ⟨cur, by simp, hge⟩
        · intro _
          trivial
      · constructor
        · intro habs
          simp [ensureHealthy, hc] at habs
        · intro hall
          exact absurd hge (not_le.mpr (hall cur (by simp)))
    · have hlt : healthCompare (claimedEffectiveStatus cur node)
          (claimedEffectiveThreshold threshold) < 0 := by
        by_contra hge
        exact hc ((hcheck cur).mpr (not_lt.mp hge))
      have hstep : ensureHealthy threshold node ((cur :: rest).map .tick) =
          ensureHealthy threshold node (rest.map .tick) := by
        simp [ensureHealthy, hc]
      constructor
      · rw [hstep, ih.1]
        constructor
        · rintro ⟨s, hs, hge⟩
          exact ⟨s, by simp [hs], hge⟩
        · rintro ⟨s, hs, hge⟩
          rcases List.mem_cons.mp hs with rfl | hs'
          · exact absurd hge (not_le.mpr hlt)
          · exact ⟨s, hs', hge⟩
      · rw [hstep, ih.2]
        constructor
        · intro hall s hs
          rcases List.mem_cons.mp hs with rfl | hs'
          · exact hlt
          · exact hall s hs'
        · intro hall s hs
          exact hall s (by simp [hs])

/-! ## Health aggregator (`health_aggregator.go`)

`beginWatch` is a loop selecting on the quit channel and the watcher's
result channel; we embed it over the list of select events it observes.
`curHealth` is `Option Snapshot`, with `none` standing for the Go nil map
the struct starts with. -/

/-- One firing of `beginWatch`'s select (health_aggregator.go:67-80): the
quit channel closed (`Stop()`), the result channel closed (watcher exited),
or a snapshot emission. -/
inductive WatchEvent where
  | quit
  | chanClosed
  | emit (s : Snapshot)
deriving DecidableEq, Repr

/-- The loop of `beginWatch` (health_aggregator.go:67-80): each emitted
snapshot replaces `curHealth` wholesale; quit or channel-close returns from
the loop.  Result: the stored map and whether the loop returned (`true`) or
is still waiting for events (`false`). -/
def beginWatchLoop : List WatchEvent → Option Snapshot → Option Snapshot × Bool
  | [], cur => (cur, false)
  | .quit :: _, cur => (cur, true)
  | .chanClosed :: _, cur => (cur, true)
  | .emit s :: rest, _ => beginWatchLoop rest (some s)

/-- `beginWatch` with its deferred finalizer (health_aggregator.go:57-65):
when the loop returns with `curHealth` still nil, an empty map is installed
(and the condition broadcast) so `AggregateHealth` unblocks. -/
def beginWatch (events : List WatchEvent) : Option Snapshot × Bool :=
  match beginWatchLoop events none with
  | (cur, true) => (if cur = none then some [] else cur, true)
  | (cur, false) => (cur, false)

/-- `AggregateHealth` (health_aggregator.go:22-39) blocks until
`curHealth != nil`; this predicate says the constructor may return given
the stored map. -/
def aggregateHealthUnblocked (cur : Option Snapshot) : Prop :=
  cur.isSome

/-- C9: if `beginWatch` exits without ever emitting, an empty map is
installed, so after any exiting event sequence the stored map is non-nil
and `AggregateHealth` unblocks; once the map is non-nil it never becomes
nil again; `GetHealth` and the count queries read from the stored map
(`numOfHealth` counts exactly the hosts whose `GetHealth` entry carries the
given status); and events after a `quit` (`Stop()`) leave the stored
snapshot untouched, so later reads keep returning it. -/
theorem aggregateHealth_never_nil_after_exit :
    (∀ events : List WatchEvent,
      (beginWatch events).2 = true → aggregateHealthUnblocked (beginWatch events).1) ∧
    (∀ events : List WatchEvent,
      beginWatchLoop events none = (none, true) → beginWatch events = (some [], true)) ∧
    (∀ (events : List WatchEvent) (s : Snapshot),
      (beginWatchLoop events (some s)).1.isSome) ∧
    (∀ (status : HealthState) (hosts : List String) (cur : Snapshot),
      numOfHealth status hosts cur =
        (hosts.filter
          (fun host =>
            match GetHealth cur host with
            | some h => h.status = status
            | none => false)).length) ∧
    (∀ (pre post : List WatchEvent) (cur : Option Snapshot),
      (beginWatchLoop pre cur).2 = false →
        beginWatchLoop (pre ++ WatchEvent.quit :: post) cur =
          ((beginWatchLoop pre cur).1, true)) := by
  refine ⟨?_, ?_, ?_, ?_, ?_⟩
  · intro events hret
    unfold beginWatch at *
    rcases hloop : beginWatchLoop events none with ⟨cur, exited⟩
    cases exited with
    | false => simp [hloop] at hret
    | true =>
      cases cur with
      | none => simp [hloop, aggregateHealthUnblocked]
      | some s => simp [hloop, aggregateHealthUnblocked]
  · intro events hloop
    simp [beginWatch, hloop]
  · intro events s
    induction events generalizing s with
    | nil => simp [beginWatchLoop]
    | cons e rest ih =>
      cases e with
      | quit => simp [beginWatchLoop]
      | chanClosed => simp [beginWatchLoop]
      | emit s' => simpa [beginWatchLoop] using ih s'
  · intro status hosts cur
    have h : ∀ acc : Nat,
        hosts.foldl
          (fun count host =>
            match mapLookup cur host with
            | some h => if h.status = status then count + 1 else count
            | none => count)
          acc =
        acc + (hosts.filter
          (fun host =>
            match mapLookup cur host with
            | some h => h.status = status
            | none => false)).length := by
      induction hosts with
      | nil => simp
      | cons host rest ih =>
        intro acc
        cases hl : mapLookup cur host with
        | none =>
          simp only [List.foldl_cons, hl, List.filter_cons]
          rw [ih acc]
          simp [hl]
        | some r =>
          by_cases hs : r.status = status
          · simp only [List.foldl_cons, hl, hs, if_true, List.filter_cons]
            rw [ih (acc + 1)]
            simp [hl, hs]
            omega
          · simp only [List.foldl_cons, hl, hs, if_false, List.filter_cons]
            rw [ih acc]
            simp [hl, hs]
    simpa [numOfHealth, GetHealth] using h 0
  · intro pre post cur hnf
    induction pre generalizing cur with
    | nil => simp [beginWatchLoop]
    | cons e rest ih =>
      cases e with
      | quit => simp [beginWatchLoop] at hnf
      | chanClosed => simp [beginWatchLoop] at hnf
      | emit s =>
        simp only [beginWatchLoop, List.cons_append] at *
        exact ih (some s) hnf

/-- Witness for C9 at concrete inputs: a watcher that exits (result channel
closed) without emitting leaves an installed empty map, the constructor
unblocks on it, and a quit event freezes a previously emitted snapshot. -/
theorem aggregateHealth_never_nil_after_exit_witness :
    beginWatch [WatchEvent.chanClosed] = (some [], true) ∧
      aggregateHealthUnblocked (beginWatch [WatchEvent.chanClosed]).1 ∧
      beginWatchLoop
          [WatchEvent.emit [("n1", ⟨"c", HealthState.passing⟩)], WatchEvent.quit,
            WatchEvent.emit []] none =
        (some [("n1", ⟨"c", HealthState.passing⟩)], true) := by
  refine ⟨?_, ?_, ?_⟩
  · exact aggregateHealth_never_nil_after_exit.2.1 [WatchEvent.chanClosed] rfl
  · exact aggregateHealth_never_nil_after_exit.1 [WatchEvent.chanClosed] rfl
  · exact
      aggregateHealth_never_nil_after_exit.2.2.2.2
        [WatchEvent.emit [("n1", ⟨"c", HealthState.passing⟩)]]
        [WatchEvent.emit []] none rfl

/-! ## Lock acquisition (`replication.go:233-262`)

`lock` calls `session.Lock`, and on an `AlreadyLockedError` consults
`store.LockHolder`; with `overrideLock` set it calls
`store.DestroyLockHolder` and recurses once with `overrideLock=false`.
Each attempt's external responses are bundled into an `AttemptEnv`; `lock`
consumes one `AttemptEnv` per `session.Lock` call. -/

/-- The result of one `session.Lock(lockPath)` call: success, the typed
`consul.AlreadyLockedError`, or some other error. -/
inductive LockAttemptRes where
  | acquired
  | alreadyLocked
  | otherErr
deriving DecidableEq, Repr

/-- The external responses one iteration of `lock` may consult:
`session.Lock`'s result, `store.LockHolder`'s result (error, or holder name
and session id), and whether `store.DestroyLockHolder` errors. -/
structure AttemptEnv where
  lockRes : LockAttemptRes
  holderRes : Except Unit (String × String)
  destroyErr : Bool
deriving Repr

/-- The distinct ways `lock` can return, one per return site in
replication.go:233-262. -/
inductive LockOutcome where
  | ok
  | lockErr
  | holderLookupErr
  | lockDelayErr
  | destroyHolderErr
  | alreadyHeldErr
  | outOfAttempts
deriving DecidableEq, Repr

/-- `lock` (replication.go:233-262), instrumented with the number of
`session.Lock` calls and `store.DestroyLockHolder` calls it makes.  On
`AlreadyLockedError`: a holder-lookup error fails (line 239); an empty
holder fails with the lock-delay error (line 246) without retrying; with
`overrideLock` the holder's session is destroyed and the call recurses
exactly as the source does, passing `false` (line 254); without it the
already-held error is returned (line 257). -/
def lock (overrideLock : Bool) : List AttemptEnv → LockOutcome × Nat × Nat
  | [] => (.outOfAttempts, 0, 0)
  | a :: rest =>
    match a.lockRes with
    | .acquired => (.ok, 1, 0)
    | .otherErr => (.lockErr, 1, 0)
    | .alreadyLocked =>
      match a.holderRes with
      | .error _ => (.holderLookupErr, 1, 0)
      | .ok (holder, _id) =>
        if holder = "" then (.lockDelayErr, 1, 0)
        else if overrideLock then
          if a.destroyErr then (.destroyHolderErr, 1, 1)
          else
            let (out, n, d) := lock false rest
            (out, n + 1, d + 1)
        else (.alreadyHeldErr, 1, 0)

/-- C7: when `session.Lock` reports already-locked — (a) an empty holder
identity fails immediately with the lock-delay error, with no destroy and
no retry, whatever `overrideLock` is; (b) with a holder present and
`overrideLock` set, the holder is destroyed (one destroy call) and the lock
retried exactly once with override disabled, so a second already-locked
result with a holder fails with the already-held error after exactly two
lock attempts; (c) with `overrideLock` unset it fails with the already-held
error on the single attempt; and in every case at most two lock attempts
are ever made. -/
theorem lock_already_locked_policy :
    (∀ (overrideLock : Bool) (a : AttemptEnv) (rest : List AttemptEnv)
        (id : String),
      a.lockRes = .alreadyLocked → a.holderRes = .ok ("", id) →
        lock overrideLock (a :: rest) = (.lockDelayErr, 1, 0)) ∧
    (∀ (a : AttemptEnv) (rest : List AttemptEnv) (holder id : String),
      a.lockRes = .alreadyLocked → a.holderRes = .ok (holder, id) →
        holder ≠ "" → a.destroyErr = false →
        lock true (a :: rest) =
          ((lock false rest).1, (lock false rest).2.1 + 1, (lock false rest).2.2 + 1)) ∧
    (∀ (a b : AttemptEnv) (rest : List AttemptEnv) (h1 i1 h2 i2 : String),
      a.lockRes = .alreadyLocked → a.holderRes = .ok (h1, i1) → h1 ≠ "" →
        a.destroyErr = false →
        b.lockRes = .alreadyLocked → b.holderRes = .ok (h2, i2) → h2 ≠ "" →
        lock true (a :: b :: rest) = (.alreadyHeldErr, 2, 1)) ∧
    (∀ (a : AttemptEnv) (rest : List AttemptEnv) (holder id : String),
      a.lockRes = .alreadyLocked → a.holderRes = .ok (holder, id) →
        holder ≠ "" →
        lock false (a :: rest) = (.alreadyHeldErr, 1, 0)) ∧
    (∀ (overrideLock : Bool) (env : List AttemptEnv),
      (lock overrideLock env).2.1 ≤ 2) := by
  have hfalse_one : ∀ env : List AttemptEnv, (lock false env).2.1 ≤ 1 := by
    intro env
    cases env with
    | nil => simp [lock]
    | cons a rest =>
      cases ha : a.lockRes with
      | acquired => simp [lock, ha]
      | otherErr => simp [lock, ha]
      | alreadyLocked =>
        cases hh : a.holderRes with
        | error e => simp [lock, ha, hh]
        | ok p =>
          rcases p with ⟨holder, id⟩
          by_cases hempty : holder = "" <;> simp [lock, ha, hh, hempty]
  refine ⟨?_, ?_, ?_, ?_, ?_⟩
  · intro overrideLock a rest id ha hh
    simp [lock, ha, hh]
  · intro a rest holder id ha hh hne hd
    simp [lock, ha, hh, hne, hd]
  · intro a b rest h1 i1 h2 i2 ha hh1 hne1 hd hb hh2 hne2
    simp [lock, ha, hh1, hne1, hd, hb, hh2, hne2]
  · intro a rest holder id ha hh hne
    simp [lock, ha, hh, hne]
  · intro overrideLock env
    cases overrideLock with
    | false => exact le_trans (hfalse_one env) (by norm_num)
    | true =>
      cases env with
      | nil => simp [lock]
      | cons a rest =>
        cases ha : a.lockRes with
        | acquired => simp [lock, ha]
        | otherErr => simp [lock, ha]
        | alreadyLocked =>
          cases hh : a.holderRes with
          | error e => simp [lock, ha, hh]
          | ok p =>
            rcases p with ⟨holder, id⟩
            by_cases hempty : holder = ""
            · simp [lock, ha, hh, hempty]
            · by_cases hd : a.destroyErr
              · simp [lock, ha, hh, hempty, hd]
              · have h := hfalse_one rest
                rcases hres : lock false rest with ⟨out, n, d⟩
                rw [hres] at h
                simp only [lock, ha, hh, hempty, hd, hres] at h ⊢
                simp at h ⊢
                omega

/-- Witness for C7 at concrete inputs: override of a held lock destroys the
holder and succeeds on the single retry; a lock-delay (empty holder) fails
without retry. -/
theorem lock_already_locked_policy_witness :
    lock true
        [⟨.alreadyLocked, .ok ("other", "sess1"), false⟩, ⟨.acquired, .ok ("", ""), false⟩] =
      (.ok, 2, 1) ∧
    lock true [⟨.alreadyLocked, .ok ("", "sess1"), false⟩] = (.lockDelayErr, 1, 0) := by
  constructor
  · have h :=
      lock_already_locked_policy.2.1
        ⟨.alreadyLocked, .ok ("other", "sess1"), false⟩
        [⟨.acquired, .ok ("", ""), false⟩] "other" "sess1" rfl rfl (by decide) rfl
    rw [h]
    rfl
  · exact
      lock_already_locked_policy.1 true
        ⟨.alreadyLocked, .ok ("", "sess1"), false⟩ [] "sess1" rfl rfl

/-! ## Per-node result handling inside `Enact` (replication.go:370-396)

Each worker wraps `updateOne` in a goroutine whose body logs a success, or
switches on the error: `errTimeout` appends to `timedOutReplications` and
logs; `errCancelled` logs; every other error falls to the `default:` branch
and is logged as unexpected.  Nothing in this code writes to `errCh`. -/

/-- The errors `updateOne` can return, as seen by the worker goroutine:
the sentinel cancellation-like errors, a transaction-build error
(`SetPodTxn`/`SetLabelsTxn` failure returned raw, replication.go:550-565),
the transaction-conflict error (line 577), or anything else. -/
inductive NodeUpdateErr where
  | errTimeout
  | errCancelled
  | errQuit
  | buildErr
  | commitConflict
  | otherErr
deriving DecidableEq, Repr

/-- Which log statement the goroutine executes for a node. -/
inductive LogKind where
  | successInfo
  | timedOutLog
  | cancelledLog
  | unexpectedLog
deriving DecidableEq, Repr

/-- The externally visible effects of the goroutine body at
replication.go:370-390 for one node: whether anything was sent on `errCh`,
whether the node was appended to `timedOutReplications`, and which log
fired. -/
structure NodeHandlerEffect where
  sentOnErrCh : Bool
  appendedTimedOut : Bool
  log : LogKind
deriving DecidableEq, Repr

/-- The goroutine body of replication.go:370-390 applied to `updateOne`'s
result (`none` = nil error): success logs; `errTimeout` appends the node to
`timedOutReplications` and logs; `errCancelled` logs; all other errors hit
the `default:` branch and are logged as unexpected.  No branch sends on
`errCh`. -/
def handleUpdateResult (res : Option NodeUpdateErr) : NodeHandlerEffect :=
  match res with
  | none => ⟨false, false, .successInfo⟩
  | some .errTimeout => ⟨false, true, .timedOutLog⟩
  | some .errCancelled => ⟨false, false, .cancelledLog⟩
  | some _ => ⟨false, false, .unexpectedLog⟩

/-- C5 counterexample: a per-node intent build error and a commit-conflict
error are NOT sent on the run's error channel — the `default:` branch only
logs them — refuting the claim that build/commit errors are surfaced on
`errCh`. -/
theorem handleUpdateResult_build_commit_not_sent_on_errCh :
    (handleUpdateResult (some .buildErr)).sentOnErrCh = false ∧
      (handleUpdateResult (some .commitConflict)).sentOnErrCh = false ∧
      (handleUpdateResult (some .otherErr)).sentOnErrCh = false := by
  refine ⟨rfl, rfl, rfl⟩

/-- C5 (amended): no per-node update error is ever sent on `errCh`; a node
ending in `errTimeout` is appended to `timedOutReplications` (and only such
a node is) and logged; a node ending in `errCancelled` gets the
cancellation log; every other error — `errQuit`, build/commit errors,
unexpected errors — is only logged through the `default:` unexpected-error
branch; in every case the worker goroutine then proceeds. -/
theorem handleUpdateResult_routing (res : Option NodeUpdateErr) :
    (handleUpdateResult res).sentOnErrCh = false ∧
      ((handleUpdateResult res).appendedTimedOut = true ↔ res = some .errTimeout) ∧
      ((handleUpdateResult res).log = .cancelledLog ↔ res = some .errCancelled) ∧
      ((handleUpdateResult res).log = .unexpectedLog ↔
        res = some .errQuit ∨ res = some .buildErr ∨ res = some .commitConflict ∨
          res = some .otherErr) := by
  rcases res with _ | e
  · simp [handleUpdateResult]
  · cases e <;> simp [handleUpdateResult]

/-! ## Per-node updater (replication.go:494-642) -/

/-- The result of `queryReality` for a node (replication.go:589-604):
the sentinel `pods.NoCurrentManifest`, some other error, or the node's
reality manifest. -/
inductive QueryRes where
  | noCurrentManifest
  | queryErr
  | found (m : Manifest)
deriving DecidableEq, Repr

/-- `shouldScheduleForNode` (replication.go:494-524): schedule on
`NoCurrentManifest`, on a reality read error, or on either SHA computation
error; skip exactly when the node's reality SHA equals the replication's
current manifest SHA. -/
def shouldScheduleForNode (target : Manifest) (q : QueryRes) : Bool :=
  match q with
  | .noCurrentManifest => true
  | .queryErr => true
  | .found nodeReality =>
    if nodeReality.shaErr then true
    else if target.shaErr then true
    else if nodeReality.sha = target.sha then false
    else true

/-- One firing of `ensureInReality`'s select (replication.go:612-623):
quit, context deadline, cancellation, or the poll tick (which queries
reality). -/
inductive RealityEvent where
  | quit
  | ctxDone
  | cancelled
  | tick (q : QueryRes)
deriving DecidableEq, Repr

/-- `ensureInReality` (replication.go:606-642) over its select events:
`NoCurrentManifest` and query errors keep waiting; a manifest whose SHA
(error ignored) equals the target SHA returns nil; otherwise keep
waiting. -/
def ensureInReality (targetSHA : String) : List RealityEvent → PollResult
  | [] => .stillPolling
  | .quit :: _ => .failure .errQuit
  | .ctxDone :: _ => .failure .errTimeout
  | .cancelled :: _ => .failure .errCancelled
  | .tick q :: rest =>
    match q with
    | .noCurrentManifest => ensureInReality targetSHA rest
    | .queryErr => ensureInReality targetSHA rest
    | .found man =>
      if man.sha = targetSHA then .success
      else ensureInReality targetSHA rest

/-- `transaction.CommitWithRetries`' result as used at
replication.go:568-580: an error (deadline hit), a non-ok response
(conflict), or ok. -/
inductive CommitRes where
  | commitErr
  | conflict
  | ok
deriving DecidableEq, Repr

/-- The external responses one `updateOne` call consumes. -/
structure UpdateEnv where
  query : QueryRes
  buildErr : Bool
  labelErr : Bool
  commit : CommitRes
  realityEvents : List RealityEvent
  healthEvents : List HealthEvent
deriving Repr

/-- How one `updateOne` call ends: with nil or an error, or still blocked
in a wait loop when its event list runs out. -/
inductive UpdateOneResult where
  | done (e : Option NodeUpdateErr)
  | blocked
deriving DecidableEq, Repr

/-- Accounting of one `updateOne` call: whether the deferred
`completedCount` increment at replication.go:540 fired, whether a
transaction commit was attempted (the actual intent-store write,
replication.go:568), and whether it succeeded. -/
structure UpdateAccounting where
  incremented : Bool
  commitAttempted : Bool
  intentWriteCommitted : Bool
deriving DecidableEq, Repr

/-- `updateOne` (replication.go:526-587): read the current manifest; skip
(nil, no increment) when `shouldScheduleForNode` is false; otherwise the
deferred increment fires on every subsequent path — build error (raw
error), label-write error (raw error), commit deadline (`errTimeout`),
commit conflict (conflict error), then `ensureInReality` and
`ensureHealthy`. -/
def updateOne (podLabelsNonempty : Bool) (threshold : HealthState) (node : String)
    (target : Manifest) (env : UpdateEnv) : UpdateOneResult × UpdateAccounting :=
  if shouldScheduleForNode target env.query = false then
    (.done none, ⟨false, false, false⟩)
  else if env.buildErr then
    (.done (some .buildErr), ⟨true, false, false⟩)
  else if podLabelsNonempty && env.labelErr then
    (.done (some .buildErr), ⟨true, false, false⟩)
  else
    match env.commit with
    | .commitErr => (.done (some .errTimeout), ⟨true, true, false⟩)
    | .conflict => (.done (some .commitConflict), ⟨true, true, false⟩)
    | .ok =>
      match ensureInReality target.sha env.realityEvents with
      | .failure e =>
        (.done (some (match e with
          | .errTimeout => NodeUpdateErr.errTimeout
          | .errCancelled => NodeUpdateErr.errCancelled
          | .errQuit => NodeUpdateErr.errQuit)), ⟨true, true, true⟩)
      | .stillPolling => (.blocked, ⟨true, true, true⟩)
      | .success =>
        match ensureHealthy threshold node env.healthEvents with
        | .failure e =>
          (.done (some (match e with
            | .errTimeout => NodeUpdateErr.errTimeout
            | .errCancelled => NodeUpdateErr.errCancelled
            | .errQuit => NodeUpdateErr.errQuit)), ⟨true, true, true⟩)
        | .stillPolling => (.blocked, ⟨true, true, true⟩)
        | .success => (.done none, ⟨true, true, true⟩)

/-- One node's contribution to a run: add `updateOne`'s increment to the
completed count and its commit attempt to the intent-write count. -/
def enactStep (podLabelsNonempty : Bool) (threshold : HealthState) (target : Manifest)
    (acc : Int × Nat) (p : String × UpdateEnv) : Int × Nat :=
  let a := (updateOne podLabelsNonempty threshold p.1 target p.2).2
  (acc.1 + (if a.incremented then 1 else 0),
   acc.2 + (if a.commitAttempted then 1 else 0))

/-- A run of the per-node updater over a node list: starting from
`completedCount = 0`, fold `updateOne` over the nodes, summing the
increments and the attempted intent writes. -/
def enactRun (podLabelsNonempty : Bool) (threshold : HealthState) (target : Manifest)
    (nodes : List (String × UpdateEnv)) : Int × Nat :=
  nodes.foldl (enactStep podLabelsNonempty threshold target) (0, 0)

/-- C2 counterexample: for a node whose reality differs from the target but
whose intent transaction fails to build (`SetPodTxn` error), no intent
write is ever attempted, yet the deferred increment at replication.go:540
still fires — `completedCount` is incremented for a node on which no
intent-write was issued, refuting the claim. -/
theorem updateOne_increments_without_intent_write :
    (updateOne false HealthState.empty "node1" ⟨"pod", "sha-new", false⟩
        ⟨.found ⟨"pod", "sha-old", false⟩, true, false, .ok, [], []⟩).2 =
      ⟨true, false, false⟩ ∧
    (updateOne false HealthState.empty "node1" ⟨"pod", "sha-new", false⟩
        ⟨.found ⟨"pod", "sha-old", false⟩, true, false, .ok, [], []⟩).1 =
      .done (some .buildErr) := by
  constructor <;> rfl

/-- C2 (amended): `completedCount` is incremented exactly for the nodes the
updater decides to schedule (`shouldScheduleForNode` true) — even when the
intent build or commit subsequently fails before a write is issued; a node
skipped because its reality SHA already equals the target's is not
incremented and attempts no write; and a run in which every node's reality
already matches the target performs zero intent writes and leaves
`completedCount` at 0. -/
theorem updateOne_increment_iff_scheduled
    (podLabelsNonempty : Bool) (threshold : HealthState) (node : String)
    (target : Manifest) (env : UpdateEnv) (nodes : List (String × UpdateEnv)) :
    ((updateOne podLabelsNonempty threshold node target env).2.incremented =
      shouldScheduleForNode target env.query) ∧
    (∀ m : Manifest, env.query = .found m → m.shaErr = false →
      target.shaErr = false → m.sha = target.sha →
      updateOne podLabelsNonempty threshold node target env =
        (.done none, ⟨false, false, false⟩)) ∧
    ((∀ p ∈ nodes, ∃ m : Manifest, p.2.query = .found m ∧ m.shaErr = false ∧
        m.sha = target.sha) → target.shaErr = false →
      enactRun podLabelsNonempty threshold target nodes = (0, 0)) := by
  refine ⟨?_, ?_, ?_⟩
  · by_cases hs : shouldScheduleForNode target env.query = false
    · simp [updateOne, hs]
    · rw [Bool.not_eq_false] at hs
      rw [hs]
      by_cases hb : env.buildErr
      · simp [updateOne, hs, hb]
      · by_cases hl : podLabelsNonempty && env.labelErr
        · simp [updateOne, hs, hb, hl]
        · cases hc : env.commit with
          | commitErr => simp [updateOne, hs, hb, hl, hc]
          | conflict => simp [updateOne, hs, hb, hl, hc]
          | ok =>
            cases hr : ensureInReality target.sha env.realityEvents with
            | failure e => cases e <;> simp [updateOne, hs, hb, hl, hc, hr]
            | stillPolling => simp [updateOne, hs, hb, hl, hc, hr]
            | success =>
              cases hh : ensureHealthy threshold node env.healthEvents with
              | failure e => cases e <;> simp [updateOne, hs, hb, hl, hc, hr, hh]
              | stillPolling => simp [updateOne, hs, hb, hl, hc, hr, hh]
              | success => simp [updateOne, hs, hb, hl, hc, hr, hh]
  · intro m hq hme hte hsha
    have hs : shouldScheduleForNode target env.query = false := by
      simp [shouldScheduleForNode, hq, hme, hte, hsha]
    simp [updateOne, hs]
  · intro hall hte
    have hstep : ∀ p ∈ nodes,
        (updateOne podLabelsNonempty threshold p.1 target p.2).2 =
          ⟨false, false, false⟩ := by
      intro p hp
      rcases hall p hp with ⟨m, hq, hme, hsha⟩
      have hs : shouldScheduleForNode target p.2.query = false := by
        simp [shouldScheduleForNode, hq, hme, hte, hsha]
      simp [updateOne, hs]
    have hfold : ∀ (l : List (String × UpdateEnv)) (acc : Int × Nat),
        (∀ p ∈ l, (updateOne podLabelsNonempty threshold p.1 target p.2).2 =
          ⟨false, false, false⟩) →
        l.foldl (enactStep podLabelsNonempty threshold target) acc = acc := by
      intro l
      induction l with
      | nil => intro acc _; rfl
      | cons p rest ih =>
        intro acc hl
        have h0 := hl p (by simp)
        rw [List.foldl_cons]
        have hone : enactStep podLabelsNonempty threshold target acc p = acc := by
          simp [enactStep, h0]
        rw [hone]
        exact ih acc (fun q hq => hl q (by simp [hq]))
    exact hfold nodes (0, 0) hstep

/-- Witness for C2 (amended) at concrete inputs: a node whose reality
matches the target is skipped without increment, and a two-node all-match
run does zero writes with count 0. -/
theorem updateOne_increment_iff_scheduled_witness :
    updateOne false HealthState.empty "n1" ⟨"pod", "s1", false⟩
        ⟨.found ⟨"pod", "s1", false⟩, false, false, .ok, [], []⟩ =
      (.done none, ⟨false, false, false⟩) ∧
    enactRun false HealthState.empty ⟨"pod", "s1", false⟩
        [("n1", ⟨.found ⟨"pod", "s1", false⟩, false, false, .ok, [], []⟩),
         ("n2", ⟨.found ⟨"pod", "s1", true⟩, false, false, .ok, [], []⟩)] ≠ (0, 0) ∧
    enactRun false HealthState.empty ⟨"pod", "s1", false⟩
        [("n1", ⟨.found ⟨"pod", "s1", false⟩, false, false, .ok, [], []⟩),
         ("n2", ⟨.found ⟨"pod", "s1", false⟩, false, false, .ok, [], []⟩)] = (0, 0) := by
  refine ⟨?_, ?_, ?_⟩
  · exact
      (updateOne_increment_iff_scheduled false HealthState.empty "n1"
            ⟨"pod", "s1", false⟩
            ⟨.found ⟨"pod", "s1", false⟩, false, false, .ok, [], []⟩ []).2.1
        ⟨"pod", "s1", false⟩ rfl rfl rfl rfl
  · decide
  · refine
      (updateOne_increment_iff_scheduled false HealthState.empty "n1"
            ⟨"pod", "s1", false⟩
            ⟨.found ⟨"pod", "s1", false⟩, false, false, .ok, [], []⟩ _).2.2 ?_ rfl
    intro p hp
    fin_cases hp
    · exact ⟨⟨"pod", "s1", false⟩, rfl, rfl, rfl⟩
    · exact ⟨⟨"pod", "s1", false⟩, rfl, rfl, rfl⟩

/-! ## Rollout orderer (src/unnamed/part_001:125-239)

`rolloutOrder` sorts `allocation.Node`s by a `Less` built from
`compareErrors` (on the `ForNode` errors) and `compareHealth` (on the
`Healthy` flags, ties by node name).  The comment above `Less` documents
the expected result as `[unhealthy nodes, alpha][no-status nodes,
alpha][healthy nodes, alpha]`. -/

/-- The `compare` type of part_001:134-156. -/
inductive Cmp where
  | lessThan
  | equal
  | greaterThan
deriving DecidableEq, Repr

/-- `compareFromBool` (part_001:150-156). -/
def compareFromBool (b : Bool) : Cmp :=
  if b then .lessThan else .greaterThan

/-- `Cmp.equal()` as a predicate (part_001:142-144). -/
def Cmp.isEqual : Cmp → Bool
  | .equal => true
  | _ => false

/-- `Cmp.less()` as a predicate (part_001:146-148). -/
def Cmp.isLess : Cmp → Bool
  | .lessThan => true
  | _ => false

/-- A `health.ServiceNodeStatus` as used by `compareHealth`: the node name
and its `Healthy` flag. -/
structure ServiceNodeStatus where
  node : String
  healthy : Bool
deriving DecidableEq, Repr

/-- A `health.ServiceStatus`: the per-node statuses of one service. -/
structure ServiceStatus where
  statuses : List ServiceNodeStatus
deriving DecidableEq, Repr

/-- The errors `ForNode` can yield, as distinguished by `compareErrors`:
the sentinel `health.NoStatusGiven` or any other error. -/
inductive StatusErr where
  | noStatusGiven
  | otherErr
deriving DecidableEq, Repr

/-- Modelled from the spec: `health.ServiceStatus.ForNode` is in
`pkg/health`, not under `src/`.  Per spec §4.1 a node absent from the
snapshot "has no health entry" and is ranked by the `NoStatusGiven` error;
a present node is returned with no error. -/
def ForNode (s : ServiceStatus) (node : String) : ServiceNodeStatus × Option StatusErr :=
  match s.statuses.find? (fun st => st.node = node) with
  | some st => (st, none)
  | none => (⟨node, false⟩, some .noStatusGiven)

/-- Byte-wise lexicographic `<` on Go strings (`iNode.Name < jNode.Name`,
part_001:213/219), computed on the character lists. -/
def charListLess : List Char → List Char → Bool
  | [], [] => false
  | [], _ :: _ => true
  | _ :: _, [] => false
  | a :: as, b :: bs =>
    if a < b then true
    else if b < a then false
    else charListLess as bs

/-- Go's `<` on node-name strings. -/
def goStringLess (a b : String) : Bool :=
  charListLess a.toList b.toList

/-- `rolloutOrder.compareErrors` (part_001:186-206), translated branch by
branch. -/
def compareErrors (iErr jErr : Option StatusErr) : Cmp :=
  if iErr = none ∧ jErr ≠ none then .greaterThan
  else if iErr ≠ none ∧ jErr = none then .lessThan
  else if iErr = none ∧ jErr = none then .equal
  else if iErr = jErr ∧ jErr = some .noStatusGiven then .equal
  else if iErr = some .noStatusGiven ∧ jErr ≠ some .noStatusGiven then .greaterThan
  else if iErr ≠ some .noStatusGiven ∧ jErr = some .noStatusGiven then .lessThan
  else .equal

/-- `rolloutOrder.compareHealth` (part_001:208-222), translated branch by
branch; node names stand in for the `allocation.Node` arguments, which are
only read for their `Name`. -/
def compareHealth (iName jName : String) (iHealth jHealth : ServiceNodeStatus) : Cmp :=
  if iHealth.healthy ∧ ¬jHealth.healthy then .greaterThan
  else if iHealth.healthy ∧ jHealth.healthy then compareFromBool (goStringLess iName jName)
  else if ¬iHealth.healthy ∧ jHealth.healthy then .lessThan
  else if ¬iHealth.healthy ∧ ¬jHealth.healthy then compareFromBool (goStringLess iName jName)
  else .equal

/-- `rolloutOrder.Less` (part_001:170-184): errors first, then health,
else not-less. -/
def rolloutLess (st : ServiceStatus) (iName jName : String) : Bool :=
  let iRes := ForNode st iName
  let jRes := ForNode st jName
  let c1 := compareErrors iRes.2 jRes.2
  if c1.isEqual = false then c1.isLess
  else
    let c2 := compareHealth iName jName iRes.1 jRes.1
    if c2.isEqual = false then c2.isLess
    else false

/-- Insert into a sorted list according to a boolean less: the element
sinks past exactly the elements it is less than, as in the insertion sort
`sort.Sort` runs on small slices. -/
def insertByLess (less : String → String → Bool) (x : String) : List String → List String
  | [] => [x]
  | y :: ys => if less x y then x :: y :: ys else y :: insertByLess less x ys

/-- `getRolloutOrder` (part_001:228-239): sort the allocation's nodes with
`rolloutOrder.Less` (insertion sort, as `sort.Sort` performs on slices of
this size) and emit them in order. -/
def getRolloutOrder (st : ServiceStatus) : List String → List String
  | [] => []
  | x :: xs => insertByLess (rolloutLess st) x (getRolloutOrder st xs)

/-- C4: with node `b` present and unhealthy and node `a` absent from the
snapshot, the comparator ranks the no-status node `a` BEFORE the unhealthy
node `b`, and `getRolloutOrder` on input `[b, a]` yields `[a, b]` — the
code's own comment (part_001:167-169) and the claim demand
`[unhealthy, no-status, healthy]`, i.e. `[b, a]`. -/
theorem rollout_noStatus_sorts_before_unhealthy :
    rolloutLess ⟨[⟨"b", false⟩]⟩ "a" "b" = true ∧
      rolloutLess ⟨[⟨"b", false⟩]⟩ "b" "a" = false ∧
      getRolloutOrder ⟨[⟨"b", false⟩]⟩ ["b", "a"] = ["a", "b"] := by
  refine ⟨?_, ?_, ?_⟩ <;> rfl

/-! ## `queryReality`'s semaphore select (replication.go:589-604)

Each iteration of the `for { select { ... } }` loop creates two fresh
timers with `time.After(5 * time.Second)` and `time.After(1 * time.Minute)`
alongside the semaphore receive.  The case whose event fires earliest is
the one taken. -/

/-- The three outcomes of one select iteration: a semaphore slot was
acquired (and the reality read performed), the 5-second progress log fired
(and the loop re-enters), or the 1-minute rate-limit error returned. -/
inductive RealitySelectOutcome where
  | acquired
  | loggedRetry
  | rateLimitTimeout
deriving DecidableEq, Repr

/-- One iteration of `queryReality`'s select, with the timer durations as
parameters (milliseconds): the semaphore becomes ready after `semT` ms
(`none` = not during this iteration); the earliest-firing case is taken,
the semaphore winning ties with the timers and the progress timer winning a
tie with the error timer. -/
def realitySelect (semT : Option Nat) (progressMs errorMs : Nat) : RealitySelectOutcome :=
  match semT with
  | some t =>
    if t ≤ progressMs ∧ t ≤ errorMs then .acquired
    else if progressMs ≤ errorMs then .loggedRetry
    else .rateLimitTimeout
  | none => if progressMs ≤ errorMs then .loggedRetry else .rateLimitTimeout

/-- The loop of `queryReality` (replication.go:590-603): each iteration
re-creates both timers with the source's constants (5 s and 1 min, in
milliseconds); a `loggedRetry` re-enters the loop, the other cases
return.  The result is `none` while the loop is still running after the
given iterations. -/
def queryRealityLoop : List (Option Nat) → Option RealitySelectOutcome
  | [] => none
  | s :: rest =>
    match realitySelect s 5000 60000 with
    | .acquired => some .acquired
    | .rateLimitTimeout => some .rateLimitTimeout
    | .loggedRetry => queryRealityLoop rest

/-- C8: because both `time.After` timers restart at every loop iteration
and 5 s fires before 1 min, the rate-limit error branch can never be
taken: every run of the loop either acquires a slot or is still
logging-and-retrying — never the 1-minute error; a starved worker (the
all-`none` schedule) logs progress every 5 seconds and retries forever;
and a blocked iteration takes the 5-second progress-log branch. -/
theorem queryReality_rate_limit_error_unreachable :
    (∀ sched : List (Option Nat),
      queryRealityLoop sched = none ∨ queryRealityLoop sched = some .acquired) ∧
    (∀ n : Nat, queryRealityLoop (List.replicate n none) = none) ∧
    realitySelect none 5000 60000 = .loggedRetry := by
  refine ⟨?_, ?_, rfl⟩
  · intro sched
    induction sched with
    | nil => simp [queryRealityLoop]
    | cons s rest ih =>
      cases s with
      | none =>
        simpa [queryRealityLoop, realitySelect] using ih
      | some t =>
        by_cases h : t ≤ 5000 ∧ t ≤ 60000
        · simp [queryRealityLoop, realitySelect, h]
        · have h60 : (5000 : Nat) ≤ 60000 := by norm_num
          simpa [queryRealityLoop, realitySelect, h, h60] using ih
  · intro n
    induction n with
    | zero => rfl
    | succ k ih =>
      simpa [List.replicate, queryRealityLoop, realitySelect] using ih

/-! ## The worker pool of `Enact` (replication.go:354-401)

`Enact` spawns `active` workers.  Each worker repeatedly dequeues a node,
spawns a goroutine running `updateOne` under a per-node context, and then
blocks on `select { case <-ctx.Done(): case <-r.quitCh: return }`.  With
`timeout == NoTimeout` the context is only cancelled by the goroutine's
`defer cancel()` after `updateOne` returns; with a finite timeout,
`ctx.Done()` also fires at the deadline, letting the worker dequeue the
next node while the timed-out `updateOne` is still running (the worker
never waits on `exitCh`).  We model the pool as a step relation: each
worker holds at most one current update plus a count of updates it
abandoned at a deadline that have not yet returned. -/

/-- One worker of the pool: whether an `updateOne` it is waiting on is
running, how many `updateOne` goroutines it abandoned at their deadline
that have not yet returned, and whether the worker returned (queue closed
or quit). -/
structure Worker where
  current : Bool
  abandoned : Nat
  retired : Bool
deriving DecidableEq, Repr

/-- The pool: nodes not yet dequeued, and the workers. -/
structure PoolState where
  pending : Nat
  workers : List Worker
deriving DecidableEq, Repr

/-- Updates in flight on behalf of one worker: its current update plus the
abandoned ones still running. -/
def Worker.load (w : Worker) : Nat :=
  (if w.current then 1 else 0) + w.abandoned

/-- `updateOne` invocations started but not yet returned, over the whole
pool. -/
def inFlight (s : PoolState) : Nat :=
  (s.workers.map Worker.load).sum

/-- The pool at the start of `Enact`'s multiplexing loop: `active` idle
workers (replication.go:355) and the node list still queued. -/
def initPool (active pending : Nat) : PoolState :=
  ⟨pending, List.replicate active ⟨false, 0, false⟩⟩

/-- Interleaved execution of the pool, one observable event per step.
`start`: an idle, unretired worker dequeues a node and its `updateOne`
goroutine begins (replication.go:360-373).  `finish`: a worker's current
`updateOne` returns, `cancel` runs and the worker passes its select
(replication.go:370-393).  `timeoutAdvance` (only with a finite timeout):
the per-node deadline fires `ctx.Done()` before `updateOne` returns, so
the worker leaves the select and can dequeue again while the old update
still runs (replication.go:364-365, 392-393).  `abandonedFinish`: such an
abandoned update finally returns.  `quitRetire`: the worker returns on
`quitCh` or a closed queue (replication.go:360, 394-395). -/
inductive PoolStep (timeoutEnabled : Bool) : PoolState → PoolState → Prop where
  | start (s : PoolState) (i : Nat) (w : Worker) :
      s.workers.get? i = some w → w.current = false → w.retired = false →
      0 < s.pending →
      PoolStep timeoutEnabled s
        ⟨s.pending - 1, s.workers.set i { w with current := true }⟩
  | finish (s : PoolState) (i : Nat) (w : Worker) :
      s.workers.get? i = some w → w.current = true →
      PoolStep timeoutEnabled s
        ⟨s.pending, s.workers.set i { w with current := false }⟩
  | timeoutAdvance (s : PoolState) (i : Nat) (w : Worker) :
      timeoutEnabled = true →
      s.workers.get? i = some w → w.current = true →
      PoolStep timeoutEnabled s
        ⟨s.pending,
          s.workers.set i { w with current := false, abandoned := w.abandoned + 1 }⟩
  | abandonedFinish (s : PoolState) (i : Nat) (w : Worker) :
      s.workers.get? i = some w → 0 < w.abandoned →
      PoolStep timeoutEnabled s
        ⟨s.pending, s.workers.set i { w with abandoned := w.abandoned - 1 }⟩
  | quitRetire (s : PoolState) (i : Nat) (w : Worker) :
      s.workers.get? i = some w →
      PoolStep timeoutEnabled s
        ⟨s.pending, s.workers.set i { w with retired := true }⟩

/-- States reachable by the pool. -/
def PoolReach (timeoutEnabled : Bool) : PoolState → PoolState → Prop :=
  Relation.ReflTransGen (PoolStep timeoutEnabled)

/-- The invariant behind the concurrency bound: the worker count is fixed
and, without a timeout, no worker ever abandons an update. -/
def PoolInv (active : Nat) (s : PoolState) : Prop :=
  s.workers.length = active ∧ ∀ w ∈ s.workers, w.abandoned = 0

theorem poolStep_preserves_inv {active : Nat} {s s' : PoolState}
    (hstep : PoolStep false s s') (hinv : PoolInv active s) : PoolInv active s' := by
  obtain ⟨hlen, habn⟩ := hinv
  cases hstep with
  | start i w hget hcur hret hpend =>
    refine ⟨by simpa [List.length_set] using hlen, ?_⟩
    intro x hx
    rcases List.mem_or_eq_of_mem_set hx with hx | rfl
    · exact habn x hx
    · exact habn w (List.get?_mem hget)
  | finish i w hget hcur =>
    refine ⟨by simpa [List.length_set] using hlen, ?_⟩
    intro x hx
    rcases List.mem_or_eq_of_mem_set hx with hx | rfl
    · exact habn x hx
    · exact habn w (List.get?_mem hget)
  | timeoutAdvance i w hte hget hcur =>
    exact absurd hte (by decide)
  | abandonedFinish i w hget habn0 =>
    exact absurd (habn w (List.get?_mem hget)) (by omega)
  | quitRetire i w hget =>
    refine ⟨by simpa [List.length_set] using hlen, ?_⟩
    intro x hx
    rcases List.mem_or_eq_of_mem_set hx with hx | rfl
    · exact habn x hx
    · exact habn w (List.get?_mem hget)

theorem load_sum_le_length :
    ∀ l : List Worker, (∀ w ∈ l, w.abandoned = 0) →
      (l.map Worker.load).sum ≤ l.length := by
  intro l
  induction l with
  | nil =>
    intro _
    simp
  | cons w rest ih =>
    intro h
    have hw : w.abandoned = 0 := h w (by simp)
    have hload : w.load ≤ 1 := by
      unfold Worker.load
      rw [hw]
      cases w.current <;> simp
    have hr := ih (fun x hx => h x (by simp [hx]))
    simp only [List.map_cons, List.sum_cons, List.length_cons]
    omega

theorem poolInv_inFlight_le {active : Nat} {s : PoolState}
    (hinv : PoolInv active s) : inFlight s ≤ active := by
  obtain ⟨hlen, habn⟩ := hinv
  have h := load_sum_le_length s.workers habn
  unfold inFlight
  omega

/-- C3 (amended): when the replication's per-node timeout is `NoTimeout`,
every reachable pool state has at most `active` `updateOne` invocations in
flight, for every `active` and every node list (`pending` count). -/
theorem enact_inFlight_le_active_without_timeout
    (active pending : Nat) (s : PoolState)
    (h : PoolReach false (initPool active pending) s) :
    inFlight s ≤ active := by
  have hinv : PoolInv active s := by
    induction h with
    | refl =>
      constructor
      · simp [initPool]
      · intro w hw
        rw [List.eq_of_mem_replicate hw]
    | tail hreach hstep ih =>
      exact poolStep_preserves_inv hstep ih
  exact poolInv_inFlight_le hinv

/-- Witness for C3 (amended) at a concrete input: the initial pool with
one worker and an empty queue is reachable from itself and has 0 ≤ 1
updates in flight. -/
theorem enact_inFlight_le_active_without_timeout_witness :
    inFlight (initPool 1 0) ≤ 1 :=
  enact_inFlight_le_active_without_timeout 1 0 (initPool 1 0) Relation.ReflTransGen.refl

/-- C3 counterexample: with `active = 1`, two queued nodes and a finite
per-node timeout, the pool reaches a state with 2 updates in flight — the
single worker dequeues a node, its deadline fires before `updateOne`
returns (the worker's select leaves on `ctx.Done()` without waiting for
the goroutine), and it dequeues the second node while the first update is
still running.  This refutes the claim that in-flight updates never exceed
`active`. -/
theorem enact_inFlight_exceeds_active_with_timeout :
    PoolReach true (initPool 1 2) ⟨0, [⟨true, 1, false⟩]⟩ ∧
      inFlight ⟨0, [⟨true, 1, false⟩]⟩ = 2 ∧
      1 < inFlight ⟨0, [⟨true, 1, false⟩]⟩ := by
  refine ⟨?_, rfl, by decide⟩
  have h1 : PoolStep true (initPool 1 2) ⟨1, [⟨true, 0, false⟩]⟩ :=
    PoolStep.start (initPool 1 2) 0 ⟨false, 0, false⟩ rfl rfl rfl (by decide)
  have h2 : PoolStep true ⟨1, [⟨true, 0, false⟩]⟩ ⟨1, [⟨false, 1, false⟩]⟩ :=
    PoolStep.timeoutAdvance ⟨1, [⟨true, 0, false⟩]⟩ 0 ⟨true, 0, false⟩ rfl rfl rfl
  have h3 : PoolStep true ⟨1, [⟨false, 1, false⟩]⟩ ⟨0, [⟨true, 1, false⟩]⟩ :=
    PoolStep.start ⟨1, [⟨false, 1, false⟩]⟩ 0 ⟨false, 1, false⟩ rfl rfl rfl (by decide)
  exact
    Relation.ReflTransGen.tail
      (Relation.ReflTransGen.tail (Relation.ReflTransGen.single h1) h2) h3

end P2
